import Mathlib

/-!
# Verification of `kernel_perceptron.py`

Shallow embedding of the `Kernel_perceptron` class: a multi-class kernel
perceptron with One-vs-All (`"OvA"`) or One-vs-One (`"OvO"`) decomposition,
trained against a precomputed kernel matrix.

Numeric values (kernel entries, weights, errors) are modelled as rationals
`ℚ`; class labels and indices as naturals.  The mutable `self.classifier`
numpy array is modelled as an explicit matrix value `Mat` threaded through
the training functions; Python exceptions are modelled with `Except`
(`Except.ok` = normal return, `Except.error` = raised exception), and a
Python `return None` / fall-through is `Option.none` inside an `Except.ok`.
-/

/-- Matrices (and the classifier weight array) as total functions on natural
indices with rational entries; the shape lives in the surrounding record. -/
abbrev Mat := ℕ → ℕ → ℚ

/-- `np.zeros` — the all-zero matrix. -/
def zeroMat : Mat := fun _ _ => 0

/-- The `LabelledDataset` collaborator (see the constructor docstring):
an ordered sequence of feature vectors, a parallel sequence of integer
labels, and a size. -/
structure LabelledDataset where
  data : List (List ℚ)
  labels : List ℕ
  size : ℕ

/-- The fields of a constructed `Kernel_perceptron` object that the methods
read.  `classifier` is kept outside (threaded as mutable state `Mat`);
`kernel_rows` is `kernel_mtx.shape[0]` (used by `count_mistake_vec`). -/
structure Kernel_perceptron where
  dataset : LabelledDataset
  test_set : LabelledDataset
  nclasses : ℕ
  kernel_mtx : Mat
  kernel_rows : ℕ
  train_indices : List ℕ
  test_indices : List ℕ
  classification_method : String
  OvO_indices : List (ℕ × ℕ)

/-- The `OvO_indices` pair list built in `__init__`:
`for idx1 in range(nclasses-1): for idx2 in range(idx1+1, nclasses):
append (idx1, idx2)`. -/
def ovoPairs (nclasses : ℕ) : List (ℕ × ℕ) :=
  (List.range (nclasses - 1)).flatMap fun idx1 =>
    (List.range' (idx1 + 1) (nclasses - (idx1 + 1))).map fun idx2 => (idx1, idx2)

/-- Result of `__init__`: the populated object plus the `classifier`
attribute, which is only assigned in the `'OvA'` and `'OvO'` branches
(`none` = the attribute was never set). -/
structure InitResult where
  kp : Kernel_perceptron
  classifier : Option Mat

/-- The object fields assigned unconditionally by `__init__` (plus
`OvO_indices`, assigned only in the `'OvO'` branch, otherwise left `[]`). -/
def mkKP (dataset test_set : LabelledDataset) (train_indices test_indices : List ℕ)
    (nclasses : ℕ) (kernel_mtx : Mat) (kernel_rows : ℕ)
    (classification_method : String) : Kernel_perceptron :=
  { dataset := dataset
    test_set := test_set
    nclasses := nclasses
    kernel_mtx := kernel_mtx
    kernel_rows := kernel_rows
    train_indices := train_indices
    test_indices := test_indices
    classification_method := classification_method
    OvO_indices := if classification_method = "OvO" then ovoPairs nclasses else [] }

/-- `Kernel_perceptron.__init__`.  The source body contains no validation
and raises no exception: it stores the arguments and, depending on
`classification_method`, allocates the zero weight matrix
(`nclasses × dataset.size` for `'OvA'`, `k(k-1)/2 × dataset.size` for
`'OvO'`, together with `OvO_indices`); for any other method string it
simply leaves the `classifier` attribute unset. -/
def Kernel_perceptron.init (dataset test_set : LabelledDataset)
    (train_indices test_indices : List ℕ) (nclasses : ℕ) (kernel_mtx : Mat)
    (kernel_rows : ℕ) (classification_method : String) :
    Except String InitResult :=
  Except.ok
    { kp := mkKP dataset test_set train_indices test_indices nclasses kernel_mtx
        kernel_rows classification_method
      classifier :=
        if classification_method = "OvA" then some zeroMat
        else if classification_method = "OvO" then some zeroMat
        else none }

/-- `np.argmax` helper: scan the tail keeping the first index of the
maximum (`best_val < x` — a strictly greater value replaces, so the first
occurrence of the maximum wins, matching `np.argmax` tie-breaking). -/
def argmaxAux : List ℚ → ℕ → ℕ → ℚ → ℕ
  | [], _, best_idx, _ => best_idx
  | x :: xs, i, best_idx, best_val =>
      if best_val < x then argmaxAux xs (i + 1) i x
      else argmaxAux xs (i + 1) best_idx best_val

/-- `np.argmax` over a list: index of the first occurrence of the maximum
(`0` on the empty list, where numpy would raise). -/
def argmaxFirst : List ℚ → ℕ
  | [] => 0
  | x :: xs => argmaxAux xs 1 0 x

/-- Increment position `i` of a vector (`v[i] += 1`). -/
def incAt (v : List ℚ) (i : ℕ) : List ℚ := v.set i (v.getD i 0 + 1)

/-- The OvO voting loop of `predict`: for each pair `(a, b)` at row
`class_idx`, vote for `a` if the confidence is positive, else for `b`. -/
def ovoVotesAux (confj : ℕ → ℚ) : List (ℕ × ℕ) → ℕ → List ℚ → List ℚ
  | [], _, v => v
  | p :: rest, class_idx, v =>
      ovoVotesAux confj rest (class_idx + 1)
        (if 0 < confj class_idx then incAt v p.1 else incAt v p.2)

/-- The per-point OvO vote tally (`OvO_classifier` in the source): a
length-`nclasses` zero vector accumulated over `OvO_indices`. -/
def ovoVotes (nclasses : ℕ) (pairs : List (ℕ × ℕ)) (confj : ℕ → ℚ) : List ℚ :=
  ovoVotesAux confj pairs 0 (List.replicate nclasses 0)

/-- `Kernel_perceptron.predict`.  Note that the body never reads its
`test_points` argument: the kernel block is always
`kernel_mtx[train_indices, test_indices.T]`, i.e. the columns are the
stored held-out test indices.  The final `else` branch models the Python
fall-through `return None`. -/
def Kernel_perceptron.predict (self : Kernel_perceptron) (w : Mat)
    (test_points : List (List ℚ)) : Option (List ℕ) :=
  let K : ℕ → ℕ → ℚ := fun i j =>
    self.kernel_mtx (self.train_indices.getD i 0) (self.test_indices.getD j 0)
  let m := self.train_indices.length
  let t := self.test_indices.length
  let confidence : ℕ → ℕ → ℚ := fun r j =>
    ((List.range m).map fun i => w r i * K i j).sum
  if self.classification_method = "OvA" then
    some ((List.range t).map fun j =>
      argmaxFirst ((List.range self.nclasses).map fun r => confidence r j))
  else if self.classification_method = "OvO" then
    some ((List.range t).map fun j =>
      argmaxFirst (ovoVotes self.nclasses self.OvO_indices fun p => confidence p j))
  else none

/-- `np.sum(predictions != labels)` for two parallel sequences. -/
def countMismatch : List ℕ → List ℕ → ℕ
  | p :: ps, y :: ys => (if p ≠ y then 1 else 0) + countMismatch ps ys
  | _, _ => 0

/-- `Kernel_perceptron.test_error`: fraction of test points whose
prediction differs from the test label. -/
def Kernel_perceptron.test_error (self : Kernel_perceptron) (w : Mat) : ℚ :=
  let predictions := (self.predict w self.test_set.data).getD []
  (countMismatch predictions self.test_set.labels : ℚ) / (self.test_set.size : ℚ)

/-- One pointwise update of the weight matrix: add `d` at `(r, c)`. -/
def updW (w : Mat) (r c : ℕ) (d : ℚ) : Mat :=
  fun r' c' => if r' = r ∧ c' = c then w r' c' + d else w r' c'

/-- The OvA inner loop of `train` for one example: iterate `this_class`
over the class list; a positive confidence on a wrong class decrements the
weight at `(this_class, data_idx)`, a non-positive confidence on the true
class increments it; either case counts one mistake.  The confidence
vector is the one computed before the loop and is not re-read from `w`. -/
def ovaLoop (conf : ℕ → ℚ) (label data_idx : ℕ) :
    List ℕ → Mat → ℕ → Mat × ℕ
  | [], w, mistakes => (w, mistakes)
  | this_class :: rest, w, mistakes =>
      if 0 < conf this_class ∧ this_class ≠ label then
        ovaLoop conf label data_idx rest (updW w this_class data_idx (-1)) (mistakes + 1)
      else if conf this_class ≤ 0 ∧ this_class = label then
        ovaLoop conf label data_idx rest (updW w this_class data_idx 1) (mistakes + 1)
      else ovaLoop conf label data_idx rest w mistakes

/-- The OvO inner loop of `train` for one example: iterate over
`OvO_indices` with running row index `class_idx`; two independent `if`
statements (second one sees the state left by the first). -/
def ovoLoop (conf : ℕ → ℚ) (label data_idx : ℕ) :
    List (ℕ × ℕ) → ℕ → Mat → ℕ → Mat × ℕ
  | [], _, w, mistakes => (w, mistakes)
  | this_pair :: rest, class_idx, w, mistakes =>
      let s1 : Mat × ℕ :=
        if this_pair.1 = label ∧ conf class_idx ≤ 0 then
          (updW w class_idx data_idx 1, mistakes + 1)
        else (w, mistakes)
      let s2 : Mat × ℕ :=
        if this_pair.2 = label ∧ 0 < conf class_idx then
          (updW s1.1 class_idx data_idx (-1), s1.2 + 1)
        else s1
      ovoLoop conf label data_idx rest (class_idx + 1) s2.1 s2.2

/-- Processing of one training example inside an epoch: compute
`confidence = classifier · K[data_idx, :]` and apply the
decomposition-specific mistake rule. -/
def Kernel_perceptron.processExample (self : Kernel_perceptron)
    (Ktr : ℕ → ℕ → ℚ) (w : Mat) (data_idx : ℕ) (mistakes : ℕ) : Mat × ℕ :=
  let m := self.train_indices.length
  let confidence : ℕ → ℚ := fun r =>
    ((List.range m).map fun i => w r i * Ktr data_idx i).sum
  let label := self.dataset.labels.getD data_idx 0
  if self.classification_method = "OvA" then
    ovaLoop confidence label data_idx (List.range self.nclasses) w mistakes
  else if self.classification_method = "OvO" then
    ovoLoop confidence label data_idx self.OvO_indices 0 w mistakes
  else (w, mistakes)

/-- The online pass of one epoch: `for data_idx, data_point in
enumerate(self.dataset.data)`, threading the weight matrix and the
epoch's mistake counter. -/
def Kernel_perceptron.epochAux (self : Kernel_perceptron) (Ktr : ℕ → ℕ → ℚ) :
    List (List ℚ) → ℕ → Mat → ℕ → Mat × ℕ
  | [], _, w, mistakes => (w, mistakes)
  | _ :: rest, data_idx, w, mistakes =>
      let s := self.processExample Ktr w data_idx mistakes
      self.epochAux Ktr rest (data_idx + 1) s.1 s.2

/-- One full epoch over the training data, starting the mistake counter
at `0`. -/
def Kernel_perceptron.runEpoch (self : Kernel_perceptron) (Ktr : ℕ → ℕ → ℚ)
    (w : Mat) : Mat × ℕ :=
  self.epochAux Ktr self.dataset.data 0 w 0

/-- The convergence test of `train`:
`prev_train_error - train_error < epsilon or
 test_error > prev_test_error + 1e3 * epsilon`.
`none` models the initialization of both baselines to `float('inf')`:
`inf - x = inf` is never `< epsilon` and `x > inf + c` is never true, so a
`none` baseline contributes `false`. -/
def stopCond (prev_train_error prev_test_error : Option ℚ)
    (train_error test_error epsilon : ℚ) : Bool :=
  (match prev_train_error with
   | none => false
   | some p => decide (p - train_error < epsilon)) ||
  (match prev_test_error with
   | none => false
   | some q => decide (q + 1000 * epsilon < test_error))

/-- The train×train kernel block computed at the top of `train`:
`K = kernel_mtx[train_indices, train_indices.T]`. -/
def Kernel_perceptron.Ktrain (self : Kernel_perceptron) : ℕ → ℕ → ℚ :=
  fun i j =>
    self.kernel_mtx (self.train_indices.getD i 0) (self.train_indices.getD j 0)

/-- The epoch loop of `train`, with the remaining epoch count as fuel and
the last computed `train_error` threaded (so that exhausting the epochs
returns the final epoch's training error, as the trailing
`return train_error` does). -/
def Kernel_perceptron.trainAux (self : Kernel_perceptron) (Ktr : ℕ → ℕ → ℚ)
    (epsilon : ℚ) : ℕ → Mat → Option ℚ → Option ℚ → ℚ → Mat × ℚ
  | 0, w, _, _, train_error => (w, train_error)
  | n + 1, w, prev_train_error, prev_test_error, _ =>
      let s := self.runEpoch Ktr w
      let train_error : ℚ := (s.2 : ℚ) / (self.dataset.size : ℚ)
      let test_err : ℚ := Kernel_perceptron.test_error self s.1
      if stopCond prev_train_error prev_test_error train_error test_err epsilon then
        (s.1, train_error)
      else
        self.trainAux Ktr epsilon n s.1 (some train_error) (some test_err) train_error

/-- `Kernel_perceptron.train(max_epochs, epsilon=1e-5)`: both error
baselines start at infinity (`none`) and the train×train kernel block is
looked up once.  Returns the final classifier state together with the
returned training error. -/
def Kernel_perceptron.train (self : Kernel_perceptron) (w : Mat)
    (max_epochs : ℕ) (epsilon : ℚ) : Mat × ℚ :=
  self.trainAux self.Ktrain epsilon max_epochs w none none 0

/-- `np.unique(labels)`: the distinct label values in increasing order. -/
def uniqueSorted (labels : List ℕ) : List ℕ :=
  (List.range (labels.foldr max 0 + 1)).filter fun v => labels.contains v

/-- The `counts` companion of `np.unique(labels, return_counts=True)`:
occurrence counts aligned with `uniqueSorted labels`. -/
def countsOf (labels : List ℕ) : List ℕ :=
  (uniqueSorted labels).map fun v => labels.count v

/-- Increment cell `(i, j)` of a matrix (`conf_mtx[i, j] += 1`). -/
def bump (m : Mat) (i j : ℕ) : Mat :=
  fun i' j' => if i' = i ∧ j' = j then m i' j' + 1 else m i' j'

/-- The counting loop of `confusion_matrix`: for each prediction at
position `idx` with true label `y = labels[idx]`, increment cell
`(y, pred)` iff `pred ≠ y`. -/
def confAux (labels : List ℕ) : List ℕ → ℕ → Mat → Mat
  | [], _, cm => cm
  | pred :: rest, idx, cm =>
      confAux labels rest (idx + 1)
        (if pred ≠ labels.getD idx 0 then bump cm (labels.getD idx 0) pred else cm)

/-- `Kernel_perceptron.confusion_matrix`.  The final
`np.divide(conf_mtx, counts.T)` broadcasts the 1-D `counts` vector across
the rows of the `nclasses × nclasses` matrix, i.e. cell `(i, j)` is divided
by `counts[j]` (meaningful when `counts` has `nclasses` entries, i.e. every
class occurs among the test labels; otherwise numpy would reject the
shapes — out-of-range positions read the default `0`). -/
def Kernel_perceptron.confusion_matrix (self : Kernel_perceptron) (w : Mat) : Mat :=
  let counts := countsOf self.test_set.labels
  let predictions := (self.predict w self.test_set.data).getD []
  let cm := confAux self.test_set.labels predictions 0 zeroMat
  fun i j => cm i j / (counts.getD j 0 : ℚ)

/-- The counting loop of `count_mistake_vec`: for each wrong prediction at
test position `idx`, increment the entry at the global kernel index
`test_indices[idx]`. -/
def cmvAux (labels test_indices : List ℕ) : List ℕ → ℕ → List ℚ → List ℚ
  | [], _, vec => vec
  | pred :: rest, idx, vec =>
      cmvAux labels test_indices rest (idx + 1)
        (if pred ≠ labels.getD idx 0 then incAt vec (test_indices.getD idx 0) else vec)

/-- `Kernel_perceptron.count_mistake_vec`: a zero vector of length
`kernel_mtx.shape[0]` accumulated over the test predictions. -/
def Kernel_perceptron.count_mistake_vec (self : Kernel_perceptron) (w : Mat) : List ℚ :=
  cmvAux self.test_set.labels self.test_indices
    ((self.predict w self.test_set.data).getD []) 0
    (List.replicate self.kernel_rows 0)

/-- `np.dot(x1, x2.T)` for two vectors. -/
def dotR (x1 x2 : List ℝ) : ℝ := (List.zipWith (fun a b => a * b) x1 x2).sum

/-- The summed squared coordinate differences of two vectors. -/
def sqDistSum (x1 x2 : List ℝ) : ℝ :=
  (List.zipWith (fun a b => (a - b) ^ 2) x1 x2).sum

/-- `scipy.spatial.distance.cdist(x1, x2, 'euclidean')` for one pair of
vectors: the euclidean distance. -/
noncomputable def cdistEuclid (x1 x2 : List ℝ) : ℝ :=
  Real.sqrt (sqDistSum x1 x2)

/-- `Kernel_perceptron.kernel_output`.  The method reads the attributes
`self.kernel_func` and `self.kernel_param`, taken here as arguments (note
`__init__` never assigns `kernel_func`, so a real call would fail on the
attribute lookup).  Two `if` statements and no `else`: an unsupported
kernel name falls through and returns Python `None` (`Except.ok none`);
no exception is raised anywhere in the body. -/
noncomputable def Kernel_perceptron.kernel_output (kernel_func : String)
    (kernel_param : ℝ) (x1 x2 : List ℝ) : Except String (Option ℝ) :=
  if kernel_func = "polynomial" then
    Except.ok (some (dotR x1 x2 ^ kernel_param))
  else if kernel_func = "Gaussian" then
    Except.ok (some (Real.exp (-kernel_param * cdistEuclid x1 x2 ^ 2)))
  else Except.ok none

/-- `predict` with the object state passed and returned explicitly: the
method body assigns no attribute, so the state component is returned
untouched. -/
def Kernel_perceptron.predictS (self : Kernel_perceptron) (w : Mat)
    (test_points : List (List ℚ)) : Option (List ℕ) × Mat :=
  (self.predict w test_points, w)

/-- `test_error` with the state passed and returned explicitly. -/
def Kernel_perceptron.test_errorS (self : Kernel_perceptron) (w : Mat) : ℚ × Mat :=
  (self.test_error w, w)

/-- `confusion_matrix` with the state passed and returned explicitly. -/
def Kernel_perceptron.confusion_matrixS (self : Kernel_perceptron) (w : Mat) :
    Mat × Mat :=
  (self.confusion_matrix w, w)

/-- `count_mistake_vec` with the state passed and returned explicitly. -/
def Kernel_perceptron.count_mistake_vecS (self : Kernel_perceptron) (w : Mat) :
    List ℚ × Mat :=
  (self.count_mistake_vec w, w)

theorem argmaxAux_lt (xs : List ℚ) : ∀ i bi bv, bi < i →
    argmaxAux xs i bi bv < i + xs.length := by
  induction xs with
  | nil =>
    intro i bi bv h
    simpa [argmaxAux] using h
  | cons x xs ih =>
    intro i bi bv h
    simp only [argmaxAux, List.length_cons]
    split
    · have := ih (i + 1) i x (Nat.lt_succ_self i)
      omega
    · have := ih (i + 1) bi bv (by omega)
      omega

theorem argmaxFirst_lt_length (l : List ℚ) (h : l ≠ []) :
    argmaxFirst l < l.length := by
  cases l with
  | nil => exact absurd rfl h
  | cons x xs =>
    simp only [argmaxFirst, List.length_cons]
    have := argmaxAux_lt xs 1 0 x Nat.one_pos
    omega

theorem incAt_length (v : List ℚ) (i : ℕ) : (incAt v i).length = v.length := by
  simp [incAt]

theorem ovoVotesAux_length (confj : ℕ → ℚ) (ps : List (ℕ × ℕ)) :
    ∀ k v, (ovoVotesAux confj ps k v).length = v.length := by
  induction ps with
  | nil => intro k v; simp [ovoVotesAux]
  | cons p rest ih =>
    intro k v
    simp only [ovoVotesAux]
    rw [ih]
    split <;> simp [incAt_length]

theorem ovoVotes_length (n : ℕ) (ps : List (ℕ × ℕ)) (confj : ℕ → ℚ) :
    (ovoVotes n ps confj).length = n := by
  simp [ovoVotes, ovoVotesAux_length]

/-- The per-point per-row confidence used by `predict`. -/
def predConf (self : Kernel_perceptron) (w : Mat) (r j : ℕ) : ℚ :=
  ((List.range self.train_indices.length).map fun i =>
    w r i * self.kernel_mtx (self.train_indices.getD i 0)
      (self.test_indices.getD j 0)).sum

theorem predict_ova (self : Kernel_perceptron) (w : Mat)
    (test_points : List (List ℚ)) (h : self.classification_method = "OvA") :
    self.predict w test_points =
      some ((List.range self.test_indices.length).map fun j =>
        argmaxFirst ((List.range self.nclasses).map fun r => predConf self w r j)) := by
  simp [Kernel_perceptron.predict, h, predConf]

theorem predict_ovo (self : Kernel_perceptron) (w : Mat)
    (test_points : List (List ℚ)) (h : self.classification_method = "OvO") :
    self.predict w test_points =
      some ((List.range self.test_indices.length).map fun j =>
        argmaxFirst (ovoVotes self.nclasses self.OvO_indices
          fun p => predConf self w p j)) := by
  have hne : self.classification_method ≠ "OvA" := by simp [h]
  simp [Kernel_perceptron.predict, h, hne, predConf]

/-- C1 (amended): in both OvA and OvO modes, `predict` returns an ordered
sequence with exactly one predicted label per *stored test point* (length
= `test_indices.length`, independent of the `points` argument), and every
returned label lies in `[0, nclasses)`. -/
theorem predict_one_label_per_test_point (self : Kernel_perceptron) (w : Mat)
    (test_points : List (List ℚ))
    (hmode : self.classification_method = "OvA" ∨ self.classification_method = "OvO")
    (hn : 1 ≤ self.nclasses) :
    ∃ l : List ℕ, self.predict w test_points = some l ∧
      l.length = self.test_indices.length ∧ ∀ c ∈ l, c < self.nclasses := by
  rcases hmode with h | h
  · refine ⟨_, predict_ova self w test_points h, by simp, ?_⟩
    intro c hc
    simp only [List.mem_map, List.mem_range] at hc
    obtain ⟨j, _, rfl⟩ := hc
    have hne : (List.range self.nclasses).map (fun r => predConf self w r j) ≠ [] := by
      simp only [ne_eq, List.map_eq_nil_iff, List.range_eq_nil]
      omega
    have := argmaxFirst_lt_length _ hne
    simpa using this
  · refine ⟨_, predict_ovo self w test_points h, by simp, ?_⟩
    intro c hc
    simp only [List.mem_map, List.mem_range] at hc
    obtain ⟨j, _, rfl⟩ := hc
    have hlen : (ovoVotes self.nclasses self.OvO_indices
        fun p => predConf self w p j).length = self.nclasses :=
      ovoVotes_length _ _ _
    have hne : (ovoVotes self.nclasses self.OvO_indices
        fun p => predConf self w p j) ≠ [] := by
      intro hnil
      rw [hnil] at hlen
      simp at hlen
      omega
    have := argmaxFirst_lt_length _ hne
    rw [hlen] at this
    exact this

/-- A small concrete classifier: two classes, one training point, two
held-out test points (`test_indices = [1, 2]`), constant kernel. -/
def kpC1 : Kernel_perceptron :=
  { dataset := { data := [[1]], labels := [0], size := 1 }
    test_set := { data := [[1], [1]], labels := [0, 1], size := 2 }
    nclasses := 2
    kernel_mtx := fun _ _ => 1
    kernel_rows := 4
    train_indices := [0]
    test_indices := [1, 2]
    classification_method := "OvA"
    OvO_indices := [] }

/-- C1 counterexample: `predict` called on a single input point still
returns one label per *stored test point* (here two labels), so the
returned sequence does not have one entry per given point. -/
theorem predict_length_counterexample :
    ([[(1 : ℚ)]] : List (List ℚ)).length = 1 ∧
    ((kpC1.predict zeroMat [[(1 : ℚ)]]).getD []).length = 2 ∧
    ((kpC1.predict zeroMat [[(1 : ℚ)]]).getD []).length ≠
      ([[(1 : ℚ)]] : List (List ℚ)).length := by
  refine ⟨rfl, ?_, ?_⟩ <;>
    norm_num [Kernel_perceptron.predict, kpC1, argmaxFirst, argmaxAux, zeroMat,
      List.range_succ]

/-- C1 witness: the amended statement instantiated on `kpC1`. -/
theorem predict_one_label_per_test_point_witness :
    (kpC1.classification_method = "OvA" ∨ kpC1.classification_method = "OvO") ∧
    1 ≤ kpC1.nclasses ∧
    ∃ l : List ℕ, kpC1.predict zeroMat [] = some l ∧
      l.length = kpC1.test_indices.length ∧ ∀ c ∈ l, c < kpC1.nclasses :=
  ⟨Or.inl rfl, by decide,
    predict_one_label_per_test_point kpC1 zeroMat [] (Or.inl rfl) (by decide)⟩

/-- C10: for a fixed classifier state, `predict` does not depend on the
`points` argument: the kernel block is always taken between the stored
`train_indices` and the stored `test_indices`, so any two inputs give the
same output. -/
theorem predict_independent_of_points_argument (self : Kernel_perceptron)
    (w : Mat) (points1 points2 : List (List ℚ)) :
    self.predict w points1 = self.predict w points2 := rfl

theorem list_sum_map_range (f : ℕ → ℕ) (n : ℕ) :
    ((List.range n).map f).sum = ∑ i ∈ Finset.range n, f i := by
  induction n with
  | zero => simp
  | succ n ih => simp [List.range_succ, Finset.sum_range_succ, ih]

theorem ovoPairs_length (n : ℕ) : (ovoPairs n).length = n * (n - 1) / 2 := by
  cases n with
  | zero => simp [ovoPairs]
  | succ m =>
    have h1 : (ovoPairs (m + 1)).length
        = ((List.range m).map fun a => m - a).sum := by
      simp only [ovoPairs, List.length_flatMap, Nat.add_sub_cancel]
      congr 1
      apply List.map_congr_left
      intro a ha
      rw [List.mem_range] at ha
      simp [List.length_range']
    have h3 : ∑ i ∈ Finset.range (m + 1), i = ∑ j ∈ Finset.range m, (j + 1) := by
      rw [Finset.sum_range_succ']
      simp
    rw [h1, list_sum_map_range]
    have h2 : ∑ a ∈ Finset.range m, (m - a) = ∑ j ∈ Finset.range m, (j + 1) := by
      rw [← Finset.sum_range_reflect]
      apply Finset.sum_congr rfl
      intro j hj
      rw [Finset.mem_range] at hj
      omega
    rw [h2, ← h3, Finset.sum_range_id]

theorem ovoPairs_three : ovoPairs 3 = [(0, 1), (0, 2), (1, 2)] := by decide

theorem mem_ovoPairs (n a b : ℕ) :
    (a, b) ∈ ovoPairs n ↔ a < b ∧ b < n := by
  simp only [ovoPairs, List.mem_flatMap, List.mem_map, List.mem_range,
    List.mem_range'_1]
  constructor
  · rintro ⟨a', ha', b', hb', h⟩
    injection h with h1 h2
    subst h1
    subst h2
    omega
  · rintro ⟨hab, hbn⟩
    exact ⟨a, by omega, b, by omega, rfl⟩

/-- C8: the OvO Pair Index is built by iterating `a` from `0` to
`nclasses-2` and, for each `a`, `b` from `a+1` to `nclasses-1`, appending
`(a, b)`; its length is `nclasses*(nclasses-1)/2`, for `nclasses = 3` it
is exactly `[(0,1), (0,2), (1,2)]`, its members are exactly the pairs
`a < b < nclasses`, and `__init__` installs it in OvO mode. -/
theorem ovoPairs_spec :
    (∀ n, (ovoPairs n).length = n * (n - 1) / 2) ∧
    ovoPairs 3 = [(0, 1), (0, 2), (1, 2)] ∧
    (∀ n a b, (a, b) ∈ ovoPairs n ↔ a < b ∧ b < n) ∧
    (∀ dataset test_set train_indices test_indices nclasses kernel_mtx kernel_rows,
      (mkKP dataset test_set train_indices test_indices nclasses kernel_mtx
        kernel_rows "OvO").OvO_indices = ovoPairs nclasses) :=
  ⟨ovoPairs_length, ovoPairs_three, mem_ovoPairs,
   fun _ _ _ _ _ _ _ => rfl⟩

/-- An empty dataset (`size = 0`). -/
def emptyDS : LabelledDataset := { data := [], labels := [], size := 0 }

/-- C3 counterexample: with `nclasses = 1 < 2` and a dataset of size
`0`, `__init__` still succeeds (no `InvalidConfiguration` is raised — no
validation exists in the body) and allocates the zero weight matrix. -/
theorem init_counterexample :
    (1 : ℕ) < 2 ∧ emptyDS.size = 0 ∧
    Kernel_perceptron.init emptyDS emptyDS [] [] 1 zeroMat 0 "OvA" =
      Except.ok { kp := mkKP emptyDS emptyDS [] [] 1 zeroMat 0 "OvA"
                  classifier := some zeroMat } :=
  ⟨by decide, rfl, rfl⟩

/-- C3 (amended): construction never fails: for every `nclasses`,
dataset size and `classification_method` — including `nclasses < 2`,
empty datasets, and unrecognized method strings — `__init__` returns
normally; it allocates the zero-initialized weight matrix exactly when
the method is `"OvA"` or `"OvO"`, and for any other method string leaves
the `classifier` attribute unset (so no error surfaces until a later
attribute access). -/
theorem init_never_fails (dataset test_set : LabelledDataset)
    (train_indices test_indices : List ℕ) (nclasses : ℕ) (kernel_mtx : Mat)
    (kernel_rows : ℕ) (method : String) :
    Kernel_perceptron.init dataset test_set train_indices test_indices nclasses
        kernel_mtx kernel_rows method =
      Except.ok
        { kp := mkKP dataset test_set train_indices test_indices nclasses
            kernel_mtx kernel_rows method
          classifier :=
            if method = "OvA" then some zeroMat
            else if method = "OvO" then some zeroMat
            else none } := rfl

/-- C7 counterexample: invoked with kernel type `"linear"`, the utility
does not raise `UnsupportedKernel` (no such exception exists): it falls
through both `if` statements and returns Python `None`. -/
theorem kernel_output_counterexample :
    Kernel_perceptron.kernel_output "linear" 1 [1] [1] = Except.ok none ∧
    ∀ e, Kernel_perceptron.kernel_output "linear" 1 [1] [1] ≠ Except.error e := by
  have h : Kernel_perceptron.kernel_output "linear" 1 [1] [1] = Except.ok none := by
    unfold Kernel_perceptron.kernel_output
    rw [if_neg (by decide), if_neg (by decide)]
  refine ⟨h, fun e he => ?_⟩
  rw [h] at he
  exact Except.noConfusion he

theorem sqDistSum_nonneg : ∀ x1 x2 : List ℝ, 0 ≤ sqDistSum x1 x2
  | [], _ => by simp [sqDistSum]
  | _ :: _, [] => by simp [sqDistSum]
  | a :: l1, b :: l2 => by
      simp only [sqDistSum, List.zipWith, List.sum_cons]
      exact add_nonneg (sq_nonneg _) (sqDistSum_nonneg l1 l2)

/-- C7 (amended): for the two supported kernel types the utility returns
the claimed values — `(x1·x2ᵗ)^d` for `"polynomial"` and
`exp(-γ‖x1-x2‖²)` for `"Gaussian"` — while any other kernel type makes it
return `None` rather than raising. -/
theorem kernel_output_supported (d g : ℝ) (x1 x2 : List ℝ) :
    Kernel_perceptron.kernel_output "polynomial" d x1 x2 =
      Except.ok (some (dotR x1 x2 ^ d)) ∧
    Kernel_perceptron.kernel_output "Gaussian" g x1 x2 =
      Except.ok (some (Real.exp (-g * sqDistSum x1 x2))) ∧
    (∀ func param y1 y2, func ≠ "polynomial" → func ≠ "Gaussian" →
      Kernel_perceptron.kernel_output func param y1 y2 = Except.ok none) := by
  refine ⟨rfl, ?_, ?_⟩
  · unfold Kernel_perceptron.kernel_output
    rw [if_neg (by decide), if_pos rfl]
    have hsq : cdistEuclid x1 x2 ^ 2 = sqDistSum x1 x2 :=
      Real.sq_sqrt (sqDistSum_nonneg x1 x2)
    rw [hsq]
  · intro func param y1 y2 h1 h2
    unfold Kernel_perceptron.kernel_output
    rw [if_neg h1, if_neg h2]

/-- C7 witness: the unsupported-type clause of the amended statement
instantiated at kernel type `"linear"`. -/
theorem kernel_output_supported_witness :
    ("linear" : String) ≠ "polynomial" ∧ ("linear" : String) ≠ "Gaussian" ∧
    Kernel_perceptron.kernel_output "linear" (1 : ℝ) [1] [1] = Except.ok none :=
  ⟨by decide, by decide,
    (kernel_output_supported 1 1 [1] [1]).2.2 "linear" 1 [1] [1]
      (by decide) (by decide)⟩

theorem updW_ne (w : Mat) (r c : ℕ) (d : ℚ) (r' c' : ℕ) (h : r' ≠ r ∨ c' ≠ c) :
    updW w r c d r' c' = w r' c' := by
  have hn : ¬(r' = r ∧ c' = c) := by tauto
  simp [updW, hn]

theorem updW_eq (w : Mat) (r c : ℕ) (d : ℚ) : updW w r c d r c = w r c + d := by
  simp [updW]

theorem ovaLoop_untouched (conf : ℕ → ℚ) (label data_idx : ℕ) :
    ∀ (cs : List ℕ) (w : Mat) (mk r j : ℕ), (r ∉ cs ∨ j ≠ data_idx) →
    (ovaLoop conf label data_idx cs w mk).1 r j = w r j := by
  intro cs
  induction cs with
  | nil => intro w mk r j _; rfl
  | cons c0 rest ih =>
    intro w mk r j h
    have hrec : r ∉ rest ∨ j ≠ data_idx := by
      rcases h with h | h
      · exact Or.inl fun hr => h (List.mem_cons_of_mem _ hr)
      · exact Or.inr h
    have hupd : ∀ d : ℚ, updW w c0 data_idx d r j = w r j := by
      intro d
      apply updW_ne
      rcases h with h | h
      · exact Or.inl fun hr => h (hr ▸ List.mem_cons_self _ _)
      · exact Or.inr h
    simp only [ovaLoop]
    split
    · rw [ih _ _ _ _ hrec, hupd]
    · split
      · rw [ih _ _ _ _ hrec, hupd]
      · exact ih _ _ _ _ hrec

theorem ovaLoop_at (conf : ℕ → ℚ) (label data_idx : ℕ) :
    ∀ (cs : List ℕ), cs.Nodup → ∀ (w : Mat) (mk c : ℕ), c ∈ cs →
    (ovaLoop conf label data_idx cs w mk).1 c data_idx =
      if 0 < conf c ∧ c ≠ label then w c data_idx - 1
      else if conf c ≤ 0 ∧ c = label then w c data_idx + 1
      else w c data_idx := by
  intro cs
  induction cs with
  | nil => intro _ w mk c hc; exact absurd hc (List.not_mem_nil c)
  | cons c0 rest ih =>
    intro hnd w mk c hc
    rw [List.nodup_cons] at hnd
    rcases List.mem_cons.mp hc with rfl | hmem
    · simp only [ovaLoop]
      split
      · rw [ovaLoop_untouched conf label data_idx rest _ _ _ _ (Or.inl hnd.1),
          updW_eq]
        ring
      · split
        · rw [ovaLoop_untouched conf label data_idx rest _ _ _ _ (Or.inl hnd.1),
            updW_eq]
        · rw [ovaLoop_untouched conf label data_idx rest _ _ _ _ (Or.inl hnd.1)]
    · have hne : c ≠ c0 := fun h => hnd.1 (h ▸ hmem)
      simp only [ovaLoop]
      split
      · rw [ih hnd.2 _ _ _ hmem, updW_ne _ _ _ _ _ _ (Or.inl hne)]
      · split
        · rw [ih hnd.2 _ _ _ hmem, updW_ne _ _ _ _ _ _ (Or.inl hne)]
        · exact ih hnd.2 _ _ _ hmem

theorem ovaLoop_mistakes (conf : ℕ → ℚ) (label data_idx : ℕ) :
    ∀ (cs : List ℕ) (w : Mat) (mk : ℕ),
    (ovaLoop conf label data_idx cs w mk).2 =
      mk + cs.countP (fun c =>
        decide (0 < conf c ∧ c ≠ label) || decide (conf c ≤ 0 ∧ c = label)) := by
  intro cs
  induction cs with
  | nil => intro w mk; simp [ovaLoop]
  | cons c0 rest ih =>
    intro w mk
    simp only [ovaLoop, List.countP_cons]
    split
    · rename_i h1
      have hb : (decide (0 < conf c0 ∧ c0 ≠ label) ||
          decide (conf c0 ≤ 0 ∧ c0 = label)) = true := by
        rw [decide_eq_true h1, Bool.true_or]
      rw [ih, hb]
      simp
      omega
    · split
      · rename_i h1 h2
        have hb : (decide (0 < conf c0 ∧ c0 ≠ label) ||
            decide (conf c0 ≤ 0 ∧ c0 = label)) = true := by
          rw [decide_eq_true h2, Bool.or_true]
        rw [ih, hb]
        simp
        omega
      · rename_i h1 h2
        have hb : (decide (0 < conf c0 ∧ c0 ≠ label) ||
            decide (conf c0 ≤ 0 ∧ c0 = label)) = false := by
          rw [decide_eq_false h1, decide_eq_false h2, Bool.or_self]
        rw [ih, hb]
        simp

/-- The confidence vector computed at the top of the per-example loop of
`train`: `np.dot(self.classifier, K[data_idx, :])`. -/
def trainConf (self : Kernel_perceptron) (Ktr : ℕ → ℕ → ℚ) (w : Mat)
    (data_idx : ℕ) : ℕ → ℚ := fun r =>
  ((List.range self.train_indices.length).map fun i => w r i * Ktr data_idx i).sum

theorem processExample_ova (self : Kernel_perceptron) (Ktr : ℕ → ℕ → ℚ)
    (w : Mat) (data_idx mk : ℕ) (h : self.classification_method = "OvA") :
    self.processExample Ktr w data_idx mk =
      ovaLoop (trainConf self Ktr w data_idx)
        (self.dataset.labels.getD data_idx 0) data_idx
        (List.range self.nclasses) w mk := by
  simp only [Kernel_perceptron.processExample, if_pos h]
  rfl

theorem processExample_ovo (self : Kernel_perceptron) (Ktr : ℕ → ℕ → ℚ)
    (w : Mat) (data_idx mk : ℕ) (h : self.classification_method = "OvO") :
    self.processExample Ktr w data_idx mk =
      ovoLoop (trainConf self Ktr w data_idx)
        (self.dataset.labels.getD data_idx 0) data_idx
        self.OvO_indices 0 w mk := by
  have hne : self.classification_method ≠ "OvA" := by rw [h]; decide
  simp only [Kernel_perceptron.processExample, if_neg hne, if_pos h]
  rfl

/-- C5: in OvA mode, for each processed training example (with confidence
vector `trainConf`, true label `labels[data_idx]`) and each class
`c < nclasses`: a positive confidence on a non-true class decrements the
weight at `(c, data_idx)` by 1, a non-positive confidence on the true
class increments it by 1, otherwise row `c` is unchanged; the mistake
counter grows by the number of classes where either condition fired. -/
theorem ova_mistake_rule (self : Kernel_perceptron) (Ktr : ℕ → ℕ → ℚ)
    (w : Mat) (data_idx mk c : ℕ)
    (hmode : self.classification_method = "OvA") (hc : c < self.nclasses) :
    ((0 < trainConf self Ktr w data_idx c ∧ c ≠ self.dataset.labels.getD data_idx 0) →
      (self.processExample Ktr w data_idx mk).1 c data_idx = w c data_idx - 1) ∧
    ((trainConf self Ktr w data_idx c ≤ 0 ∧ c = self.dataset.labels.getD data_idx 0) →
      (self.processExample Ktr w data_idx mk).1 c data_idx = w c data_idx + 1) ∧
    (¬(0 < trainConf self Ktr w data_idx c ∧ c ≠ self.dataset.labels.getD data_idx 0) →
     ¬(trainConf self Ktr w data_idx c ≤ 0 ∧ c = self.dataset.labels.getD data_idx 0) →
      ∀ j, (self.processExample Ktr w data_idx mk).1 c j = w c j) ∧
    (self.processExample Ktr w data_idx mk).2 =
      mk + (List.range self.nclasses).countP (fun c' =>
        decide (0 < trainConf self Ktr w data_idx c' ∧
          c' ≠ self.dataset.labels.getD data_idx 0) ||
        decide (trainConf self Ktr w data_idx c' ≤ 0 ∧
          c' = self.dataset.labels.getD data_idx 0)) := by
  rw [processExample_ova self Ktr w data_idx mk hmode]
  have hat := ovaLoop_at (trainConf self Ktr w data_idx)
    (self.dataset.labels.getD data_idx 0) data_idx
    (List.range self.nclasses) (List.nodup_range self.nclasses) w mk c
    (List.mem_range.mpr hc)
  refine ⟨?_, ?_, ?_, ?_⟩
  · intro h1
    rw [hat, if_pos h1]
  · intro h2
    have h1 : ¬(0 < trainConf self Ktr w data_idx c ∧
        c ≠ self.dataset.labels.getD data_idx 0) := by
      rintro ⟨hlt, -⟩
      exact absurd h2.1 (not_le.mpr hlt)
    rw [hat, if_neg h1, if_pos h2]
  · intro h1 h2 j
    by_cases hj : j = data_idx
    · subst hj
      rw [hat, if_neg h1, if_neg h2]
    · exact ovaLoop_untouched _ _ _ _ _ _ _ _ (Or.inr hj)
  · exact ovaLoop_mistakes _ _ _ _ _ _

theorem ovoLoop_untouched (conf : ℕ → ℚ) (label data_idx : ℕ) :
    ∀ (ps : List (ℕ × ℕ)) (p0 : ℕ) (w : Mat) (mk r j : ℕ),
    (r < p0 ∨ p0 + ps.length ≤ r ∨ j ≠ data_idx) →
    (ovoLoop conf label data_idx ps p0 w mk).1 r j = w r j := by
  intro ps
  induction ps with
  | nil => intro p0 w mk r j _; rfl
  | cons p rest ih =>
    intro p0 w mk r j h
    have hne : r ≠ p0 ∨ j ≠ data_idx := by
      rcases h with h | h | h
      · exact Or.inl (by omega)
      · exact Or.inl (by simp at h; omega)
      · exact Or.inr h
    have hrec : r < p0 + 1 ∨ (p0 + 1) + rest.length ≤ r ∨ j ≠ data_idx := by
      rcases h with h | h | h
      · exact Or.inl (by omega)
      · refine Or.inr (Or.inl ?_)
        simp at h
        omega
      · exact Or.inr (Or.inr h)
    by_cases h1 : p.1 = label ∧ conf p0 ≤ 0 <;>
      by_cases h2 : p.2 = label ∧ 0 < conf p0
    · simp only [ovoLoop, if_pos h1, if_pos h2]
      rw [ih (p0 + 1) _ _ _ _ hrec, updW_ne _ _ _ _ _ _ hne,
        updW_ne _ _ _ _ _ _ hne]
    · simp only [ovoLoop, if_pos h1, if_neg h2]
      rw [ih (p0 + 1) _ _ _ _ hrec, updW_ne _ _ _ _ _ _ hne]
    · simp only [ovoLoop, if_neg h1, if_pos h2]
      rw [ih (p0 + 1) _ _ _ _ hrec, updW_ne _ _ _ _ _ _ hne]
    · simp only [ovoLoop, if_neg h1, if_neg h2]
      rw [ih (p0 + 1) _ _ _ _ hrec]

theorem ovoLoop_at (conf : ℕ → ℚ) (label data_idx : ℕ) :
    ∀ (ps : List (ℕ × ℕ)) (p0 : ℕ) (w : Mat) (mk k a b : ℕ),
    ps[k]? = some (a, b) →
    (ovoLoop conf label data_idx ps p0 w mk).1 (p0 + k) data_idx =
      if a = label ∧ conf (p0 + k) ≤ 0 then w (p0 + k) data_idx + 1
      else if b = label ∧ 0 < conf (p0 + k) then w (p0 + k) data_idx - 1
      else w (p0 + k) data_idx := by
  intro ps
  induction ps with
  | nil => intro p0 w mk k a b hk; simp at hk
  | cons p rest ih =>
    intro p0 w mk k a b hk
    cases k with
    | zero =>
      simp only [List.getElem?_cons_zero, Option.some.injEq] at hk
      subst hk
      simp only [Nat.add_zero]
      by_cases h1 : a = label ∧ conf p0 ≤ 0
      · have h2 : ¬(b = label ∧ 0 < conf p0) := by
          rintro ⟨-, hpos⟩
          exact absurd h1.2 (not_le.mpr hpos)
        simp only [ovoLoop, if_pos h1, if_neg h2]
        rw [ovoLoop_untouched conf label data_idx rest (p0 + 1) _ _ _ _
          (Or.inl (Nat.lt_succ_self p0)), updW_eq]
      · by_cases h2 : b = label ∧ 0 < conf p0
        · simp only [ovoLoop, if_neg h1, if_pos h2]
          rw [ovoLoop_untouched conf label data_idx rest (p0 + 1) _ _ _ _
            (Or.inl (Nat.lt_succ_self p0)), updW_eq]
          ring
        · simp only [ovoLoop, if_neg h1, if_neg h2]
          rw [ovoLoop_untouched conf label data_idx rest (p0 + 1) _ _ _ _
            (Or.inl (Nat.lt_succ_self p0))]
    | succ k' =>
      simp only [List.getElem?_cons_succ] at hk
      have hshift : p0 + (k' + 1) = (p0 + 1) + k' := by omega
      have hrow : (p0 + 1) + k' ≠ p0 := by omega
      rw [hshift]
      by_cases h1 : p.1 = label ∧ conf p0 ≤ 0 <;>
        by_cases h2 : p.2 = label ∧ 0 < conf p0
      · simp only [ovoLoop, if_pos h1, if_pos h2]
        rw [ih (p0 + 1) _ _ k' a b hk, updW_ne _ _ _ _ _ _ (Or.inl hrow),
          updW_ne _ _ _ _ _ _ (Or.inl hrow)]
      · simp only [ovoLoop, if_pos h1, if_neg h2]
        rw [ih (p0 + 1) _ _ k' a b hk, updW_ne _ _ _ _ _ _ (Or.inl hrow)]
      · simp only [ovoLoop, if_neg h1, if_pos h2]
        rw [ih (p0 + 1) _ _ k' a b hk, updW_ne _ _ _ _ _ _ (Or.inl hrow)]
      · simp only [ovoLoop, if_neg h1, if_neg h2]
        rw [ih (p0 + 1) _ _ k' a b hk]

/-- The number of OvO decision-function mistakes charged for one example:
one per pair whose first class is the true label with non-positive
confidence, plus one per pair whose second class is the true label with
positive confidence, rows enumerated from `class_idx`. -/
def ovoFired (conf : ℕ → ℚ) (label : ℕ) : List (ℕ × ℕ) → ℕ → ℕ
  | [], _ => 0
  | p :: rest, class_idx =>
      (if p.1 = label ∧ conf class_idx ≤ 0 then 1 else 0) +
      (if p.2 = label ∧ 0 < conf class_idx then 1 else 0) +
      ovoFired conf label rest (class_idx + 1)

theorem ovoLoop_mistakes (conf : ℕ → ℚ) (label data_idx : ℕ) :
    ∀ (ps : List (ℕ × ℕ)) (p0 : ℕ) (w : Mat) (mk : ℕ),
    (ovoLoop conf label data_idx ps p0 w mk).2 = mk + ovoFired conf label ps p0 := by
  intro ps
  induction ps with
  | nil => intro p0 w mk; simp [ovoLoop, ovoFired]
  | cons p rest ih =>
    intro p0 w mk
    by_cases h1 : p.1 = label ∧ conf p0 ≤ 0 <;>
      by_cases h2 : p.2 = label ∧ 0 < conf p0
    · simp only [ovoLoop, ovoFired, if_pos h1, if_pos h2]
      rw [ih]
      omega
    · simp only [ovoLoop, ovoFired, if_pos h1, if_neg h2]
      rw [ih]
      omega
    · simp only [ovoLoop, ovoFired, if_neg h1, if_pos h2]
      rw [ih]
      omega
    · simp only [ovoLoop, ovoFired, if_neg h1, if_neg h2]
      rw [ih]
      omega

/-- C6: in OvO mode, for each processed training example and each pair
index `k` with `OvO_indices[k] = (a, b)`: if the true label is `a` and
`confidence[k] ≤ 0` the weight at `(k, data_idx)` is incremented by 1; if
the true label is `b` and `confidence[k] > 0` it is decremented by 1; if
the true label is neither `a` nor `b`, row `k` is unchanged; the mistake
counter grows by one per fired condition over all pairs. -/
theorem ovo_mistake_rule (self : Kernel_perceptron) (Ktr : ℕ → ℕ → ℚ)
    (w : Mat) (data_idx mk k a b : ℕ)
    (hmode : self.classification_method = "OvO")
    (hk : self.OvO_indices[k]? = some (a, b)) :
    ((a = self.dataset.labels.getD data_idx 0 ∧ trainConf self Ktr w data_idx k ≤ 0) →
      (self.processExample Ktr w data_idx mk).1 k data_idx = w k data_idx + 1) ∧
    ((b = self.dataset.labels.getD data_idx 0 ∧ 0 < trainConf self Ktr w data_idx k) →
      (self.processExample Ktr w data_idx mk).1 k data_idx = w k data_idx - 1) ∧
    (self.dataset.labels.getD data_idx 0 ≠ a → self.dataset.labels.getD data_idx 0 ≠ b →
      ∀ j, (self.processExample Ktr w data_idx mk).1 k j = w k j) ∧
    (self.processExample Ktr w data_idx mk).2 =
      mk + ovoFired (trainConf self Ktr w data_idx)
        (self.dataset.labels.getD data_idx 0) self.OvO_indices 0 := by
  rw [processExample_ovo self Ktr w data_idx mk hmode]
  have hat := ovoLoop_at (trainConf self Ktr w data_idx)
    (self.dataset.labels.getD data_idx 0) data_idx self.OvO_indices 0 w mk k a b hk
  rw [Nat.zero_add] at hat
  refine ⟨?_, ?_, ?_, ?_⟩
  · intro h1
    rw [hat, if_pos h1]
  · intro h2
    have h1 : ¬(a = self.dataset.labels.getD data_idx 0 ∧
        trainConf self Ktr w data_idx k ≤ 0) := by
      rintro ⟨-, hle⟩
      exact absurd h2.2 (not_lt.mpr hle)
    rw [hat, if_neg h1, if_pos h2]
  · intro hla hlb j
    have h1 : ¬(a = self.dataset.labels.getD data_idx 0 ∧
        trainConf self Ktr w data_idx k ≤ 0) := fun h => hla h.1.symm
    have h2 : ¬(b = self.dataset.labels.getD data_idx 0 ∧
        0 < trainConf self Ktr w data_idx k) := fun h => hlb h.1.symm
    by_cases hj : j = data_idx
    · rw [hj, hat, if_neg h1, if_neg h2]
    · exact ovoLoop_untouched _ _ _ _ _ _ _ _ _ (Or.inr (Or.inr hj))
  · exact ovoLoop_mistakes _ _ _ _ _ _ _

/-- C5 witness data: see `kpC1` (OvA mode, one training example with
label `0`, constant kernel); on the zero matrix the confidence is `0`,
so class `0` (the true label) is a false negative. -/
theorem ova_mistake_rule_witness :
    kpC1.classification_method = "OvA" ∧ (0 : ℕ) < kpC1.nclasses ∧
    (trainConf kpC1 kpC1.Ktrain zeroMat 0 0 ≤ 0 ∧
      (0 : ℕ) = kpC1.dataset.labels.getD 0 0) ∧
    (kpC1.processExample kpC1.Ktrain zeroMat 0 0).1 0 0 = zeroMat 0 0 + 1 := by
  have hconf : trainConf kpC1 kpC1.Ktrain zeroMat 0 0 ≤ 0 := by
    norm_num [trainConf, kpC1, zeroMat]
  exact ⟨rfl, by decide, ⟨hconf, rfl⟩,
    (ova_mistake_rule kpC1 kpC1.Ktrain zeroMat 0 0 0 rfl (by decide)).2.1
      ⟨hconf, rfl⟩⟩

/-- An OvO concrete classifier: two classes, pair list `[(0, 1)]`. -/
def kpC6 : Kernel_perceptron :=
  { dataset := { data := [[1]], labels := [0], size := 1 }
    test_set := { data := [[1]], labels := [0], size := 1 }
    nclasses := 2
    kernel_mtx := fun _ _ => 1
    kernel_rows := 2
    train_indices := [0]
    test_indices := [1]
    classification_method := "OvO"
    OvO_indices := ovoPairs 2 }

/-- C6 witness: on `kpC6` with the zero matrix, pair `(0, 1)` at row `0`
has confidence `0 ≤ 0` and the true label is `0`, so the weight at
`(0, 0)` is incremented. -/
theorem ovo_mistake_rule_witness :
    kpC6.classification_method = "OvO" ∧ kpC6.OvO_indices[0]? = some (0, 1) ∧
    ((0 : ℕ) = kpC6.dataset.labels.getD 0 0 ∧
      trainConf kpC6 kpC6.Ktrain zeroMat 0 0 ≤ 0) ∧
    (kpC6.processExample kpC6.Ktrain zeroMat 0 0).1 0 0 = zeroMat 0 0 + 1 := by
  have hconf : trainConf kpC6 kpC6.Ktrain zeroMat 0 0 ≤ 0 := by
    norm_num [trainConf, kpC6, zeroMat]
  exact ⟨rfl, by decide, ⟨rfl, hconf⟩,
    (ovo_mistake_rule kpC6 kpC6.Ktrain zeroMat 0 0 0 0 1 rfl (by decide)).1
      ⟨rfl, hconf⟩⟩

/-- C2: `train(max_epochs, epsilon)` starts both error baselines at
infinity (`none`), and after each epoch either stops — returning the
current epoch's `train_error` — when
`prev_train_error - train_error < epsilon` or
`test_error > prev_test_error + 1000*epsilon` (neither can fire while a
baseline is still infinite), or commits the new errors as baseline and
continues; when the epochs are exhausted it returns the last computed
`train_error`. -/
theorem train_stopping_rule (self : Kernel_perceptron) (w : Mat)
    (max_epochs : ℕ) (epsilon : ℚ) :
    (self.train w max_epochs epsilon =
      self.trainAux self.Ktrain epsilon max_epochs w none none 0) ∧
    (∀ (n : ℕ) (w' : Mat) (pt pv : Option ℚ) (last : ℚ),
      self.trainAux self.Ktrain epsilon (n + 1) w' pt pv last =
        (if stopCond pt pv (((self.runEpoch self.Ktrain w').2 : ℚ) / (self.dataset.size : ℚ))
            (self.test_error (self.runEpoch self.Ktrain w').1) epsilon = true
         then ((self.runEpoch self.Ktrain w').1,
           ((self.runEpoch self.Ktrain w').2 : ℚ) / (self.dataset.size : ℚ))
         else self.trainAux self.Ktrain epsilon n (self.runEpoch self.Ktrain w').1
           (some (((self.runEpoch self.Ktrain w').2 : ℚ) / (self.dataset.size : ℚ)))
           (some (self.test_error (self.runEpoch self.Ktrain w').1))
           (((self.runEpoch self.Ktrain w').2 : ℚ) / (self.dataset.size : ℚ)))) ∧
    (∀ ptq pvq tre tee : ℚ,
      stopCond (some ptq) (some pvq) tre tee epsilon = true ↔
        (ptq - tre < epsilon ∨ tee > pvq + 1000 * epsilon)) ∧
    (∀ tre tee : ℚ, stopCond none none tre tee epsilon = false) ∧
    (∀ (w' : Mat) (pt pv : Option ℚ) (last : ℚ),
      self.trainAux self.Ktrain epsilon 0 w' pt pv last = (w', last)) := by
  refine ⟨rfl, ?_, ?_, ?_, ?_⟩
  · intro n w' pt pv last
    rfl
  · intro ptq pvq tre tee
    simp [stopCond, decide_eq_true_iff]
  · intro tre tee
    rfl
  · intro w' pt pv last
    rfl

theorem processExample_other_cols (self : Kernel_perceptron) (Ktr : ℕ → ℕ → ℚ)
    (w : Mat) (data_idx mk r j : ℕ) (hj : j ≠ data_idx) :
    (self.processExample Ktr w data_idx mk).1 r j = w r j := by
  by_cases hA : self.classification_method = "OvA"
  · rw [processExample_ova self Ktr w data_idx mk hA]
    exact ovaLoop_untouched _ _ _ _ _ _ _ _ (Or.inr hj)
  · by_cases hO : self.classification_method = "OvO"
    · rw [processExample_ovo self Ktr w data_idx mk hO]
      exact ovoLoop_untouched _ _ _ _ _ _ _ _ _ (Or.inr (Or.inr hj))
    · simp [Kernel_perceptron.processExample, hA, hO]

theorem epochAux_untouched (self : Kernel_perceptron) (Ktr : ℕ → ℕ → ℚ) :
    ∀ (ds : List (List ℚ)) (idx0 : ℕ) (w : Mat) (mk r j : ℕ),
    idx0 + ds.length ≤ j →
    (self.epochAux Ktr ds idx0 w mk).1 r j = w r j := by
  intro ds
  induction ds with
  | nil => intro idx0 w mk r j _; rfl
  | cons d rest ih =>
    intro idx0 w mk r j h
    simp only [List.length_cons] at h
    simp only [Kernel_perceptron.epochAux]
    rw [ih (idx0 + 1) _ _ _ _ (by omega),
      processExample_other_cols self Ktr w idx0 mk r j (by omega)]

theorem runEpoch_untouched (self : Kernel_perceptron) (Ktr : ℕ → ℕ → ℚ)
    (w : Mat) (r j : ℕ) (h : self.dataset.data.length ≤ j) :
    (self.runEpoch Ktr w).1 r j = w r j :=
  epochAux_untouched self Ktr self.dataset.data 0 w 0 r j (by omega)

theorem trainAux_untouched (self : Kernel_perceptron) (Ktr : ℕ → ℕ → ℚ)
    (epsilon : ℚ) : ∀ (fuel : ℕ) (w : Mat) (pt pv : Option ℚ) (last : ℚ) (r j : ℕ),
    self.dataset.data.length ≤ j →
    (self.trainAux Ktr epsilon fuel w pt pv last).1 r j = w r j := by
  intro fuel
  induction fuel with
  | zero => intro w pt pv last r j _; rfl
  | succ n ih =>
    intro w pt pv last r j h
    simp only [Kernel_perceptron.trainAux]
    split
    · exact runEpoch_untouched self Ktr w r j h
    · rw [ih _ _ _ _ _ _ h, runEpoch_untouched self Ktr w r j h]

/-- C9: the Classifier State starts all-zero at construction in both
modes; every training mutation touches only the processed example's own
column (`processExample` leaves every other column unchanged, hence any
column beyond the training data — in particular, from the zero start, any
column whose example never triggered an update — keeps its old values);
and `predict`, `test_error`, `confusion_matrix` and `count_mistake_vec`
return the object state unchanged. -/
theorem classifier_state_invariant :
    (∀ dataset test_set train_indices test_indices nclasses kernel_mtx kernel_rows,
      Kernel_perceptron.init dataset test_set train_indices test_indices nclasses
          kernel_mtx kernel_rows "OvA" =
        Except.ok (InitResult.mk (mkKP dataset test_set train_indices test_indices
          nclasses kernel_mtx kernel_rows "OvA") (some zeroMat))) ∧
    (∀ dataset test_set train_indices test_indices nclasses kernel_mtx kernel_rows,
      Kernel_perceptron.init dataset test_set train_indices test_indices nclasses
          kernel_mtx kernel_rows "OvO" =
        Except.ok (InitResult.mk (mkKP dataset test_set train_indices test_indices
          nclasses kernel_mtx kernel_rows "OvO") (some zeroMat))) ∧
    (∀ r j, zeroMat r j = 0) ∧
    (∀ (self : Kernel_perceptron) (Ktr : ℕ → ℕ → ℚ) (w : Mat) (data_idx mk r j : ℕ),
      j ≠ data_idx →
      (self.processExample Ktr w data_idx mk).1 r j = w r j) ∧
    (∀ (self : Kernel_perceptron) (w : Mat) (max_epochs : ℕ) (epsilon : ℚ) (r j : ℕ),
      self.dataset.data.length ≤ j →
      (self.train w max_epochs epsilon).1 r j = w r j) ∧
    (∀ (self : Kernel_perceptron) (max_epochs : ℕ) (epsilon : ℚ) (r j : ℕ),
      self.dataset.data.length ≤ j →
      (self.train zeroMat max_epochs epsilon).1 r j = 0) ∧
    (∀ (self : Kernel_perceptron) (w : Mat) (pts : List (List ℚ)),
      (self.predictS w pts).2 = w) ∧
    (∀ (self : Kernel_perceptron) (w : Mat), (self.test_errorS w).2 = w) ∧
    (∀ (self : Kernel_perceptron) (w : Mat), (self.confusion_matrixS w).2 = w) ∧
    (∀ (self : Kernel_perceptron) (w : Mat), (self.count_mistake_vecS w).2 = w) := by
  refine ⟨fun _ _ _ _ _ _ _ => rfl, fun _ _ _ _ _ _ _ => rfl, fun _ _ => rfl,
    ?_, ?_, ?_, fun _ _ _ => rfl, fun _ _ => rfl, fun _ _ => rfl, fun _ _ => rfl⟩
  · intro self Ktr w data_idx mk r j hj
    exact processExample_other_cols self Ktr w data_idx mk r j hj
  · intro self w max_epochs epsilon r j h
    exact trainAux_untouched self self.Ktrain epsilon max_epochs w none none 0 r j h
  · intro self max_epochs epsilon r j h
    exact trainAux_untouched self self.Ktrain epsilon max_epochs zeroMat none none 0 r j h

/-- C9 witness: on `kpC1`, column `1 ≠ 0` survives processing example
`0`, and column `5` (beyond the single training example) of the trained
state is still zero. -/
theorem classifier_state_invariant_witness :
    (1 : ℕ) ≠ 0 ∧
    (kpC1.processExample kpC1.Ktrain zeroMat 0 0).1 0 1 = zeroMat 0 1 ∧
    kpC1.dataset.data.length ≤ 5 ∧
    (kpC1.train zeroMat 2 1).1 0 5 = 0 :=
  ⟨by decide,
    classifier_state_invariant.2.2.2.1 kpC1 kpC1.Ktrain zeroMat 0 0 0 1 (by decide),
    by decide,
    classifier_state_invariant.2.2.2.2.2.1 kpC1 2 1 0 5 (by decide)⟩

theorem le_foldr_max (l : List ℕ) : ∀ a ∈ l, a ≤ l.foldr max 0 := by
  induction l with
  | nil => intro a ha; exact absurd ha (List.not_mem_nil a)
  | cons x xs ih =>
    intro a ha
    rcases List.mem_cons.mp ha with rfl | hmem
    · simp [List.foldr_cons]
    · have := ih a hmem
      simp [List.foldr_cons]
      omega

theorem foldr_max_lt (l : List ℕ) (n : ℕ) (hn : 0 < n)
    (h : ∀ a ∈ l, a < n) : l.foldr max 0 < n := by
  induction l with
  | nil => simpa using hn
  | cons x xs ih =>
    have hx := h x (List.mem_cons_self x xs)
    have hxs := ih fun a ha => h a (List.mem_cons_of_mem x ha)
    simp only [List.foldr_cons]
    omega

theorem uniqueSorted_eq_range (labels : List ℕ) (n : ℕ) (hn : 0 < n)
    (hcov : ∀ c < n, c ∈ labels) (hbound : ∀ l ∈ labels, l < n) :
    uniqueSorted labels = List.range n := by
  have hmax : labels.foldr max 0 + 1 = n := by
    have h1 : labels.foldr max 0 < n := foldr_max_lt labels n hn hbound
    have h2 : n - 1 ≤ labels.foldr max 0 :=
      le_foldr_max labels (n - 1) (hcov (n - 1) (by omega))
    omega
  rw [uniqueSorted, hmax]
  apply List.filter_eq_self.mpr
  intro a ha
  exact List.elem_eq_true_of_mem (hcov a (List.mem_range.mp ha))

theorem countsOf_getD (labels : List ℕ) (n j : ℕ) (hn : 0 < n) (hj : j < n)
    (hcov : ∀ c < n, c ∈ labels) (hbound : ∀ l ∈ labels, l < n) :
    (countsOf labels).getD j 0 = labels.count j := by
  rw [countsOf, uniqueSorted_eq_range labels n hn hcov hbound]
  have h1 : ((List.range n).map fun v => labels.count v)[j]?
      = some (labels.count j) := by
    rw [List.getElem?_map, List.getElem?_range hj, Option.map_some']
  simp [List.getD, h1]

/-- The claim's reading of `confusion_matrix` normalization: each cell
`(y, yhat)` of the mistake-count matrix divided by the number of test
examples whose *true* label is `y` (a per-row divisor). -/
def claimedRowNormalizedCM (self : Kernel_perceptron) (w : Mat) : Mat :=
  let predictions := (self.predict w self.test_set.data).getD []
  let cm := confAux self.test_set.labels predictions 0 zeroMat
  fun i j => cm i j / (self.test_set.labels.count i : ℚ)

/-- C4 (amended): `np.divide(conf_mtx, counts.T)` broadcasts the counts
vector across rows, so — whenever every class occurs among the test
labels, which is what makes the numpy shapes compatible — cell
`(i, j)` of the result is the mistake count at `(i, j)` divided by the
number of test examples whose true label is `j`, the *predicted* class
of that cell (a column divisor, not the row divisor of the claim). -/
theorem confusion_matrix_column_normalized (self : Kernel_perceptron) (w : Mat)
    (hn : 0 < self.nclasses)
    (hcov : ∀ c < self.nclasses, c ∈ self.test_set.labels)
    (hbound : ∀ l ∈ self.test_set.labels, l < self.nclasses) :
    ∀ j < self.nclasses, ∀ i,
      self.confusion_matrix w i j =
        confAux self.test_set.labels
          ((self.predict w self.test_set.data).getD []) 0 zeroMat i j /
          (self.test_set.labels.count j : ℚ) := by
  intro j hj i
  simp only [Kernel_perceptron.confusion_matrix]
  rw [countsOf_getD self.test_set.labels self.nclasses j hn hj hcov hbound]

/-- Concrete OvA classifier for the confusion matrix: three test points
with true labels `[0, 0, 1]`. -/
def kpC4 : Kernel_perceptron :=
  { dataset := { data := [[1]], labels := [0], size := 1 }
    test_set := { data := [[1], [1], [1]], labels := [0, 0, 1], size := 3 }
    nclasses := 2
    kernel_mtx := fun _ _ => 1
    kernel_rows := 5
    train_indices := [0]
    test_indices := [1, 2, 3]
    classification_method := "OvA"
    OvO_indices := [] }

/-- A weight state under which every test point is predicted as class 1:
both points of true class 0 land in cell `(0, 1)`. -/
def wC4 : Mat := fun r _ => if r = 1 then 1 else 0

/-- C4 counterexample: with two mistakes in cell `(0, 1)`, two test
examples of true class `0` and one of class `1`, the code divides by the
count of the *predicted* class (`1`, giving `2/1 = 2`), not by the count
of the true class as the claim states (`2/2 = 1`). -/
theorem confusion_matrix_counterexample :
    kpC4.confusion_matrix wC4 0 1 = 2 ∧
    claimedRowNormalizedCM kpC4 wC4 0 1 = 1 ∧
    kpC4.confusion_matrix wC4 0 1 ≠ claimedRowNormalizedCM kpC4 wC4 0 1 := by
  have h1 : kpC4.confusion_matrix wC4 0 1 = 2 := by
    norm_num [Kernel_perceptron.confusion_matrix, Kernel_perceptron.predict,
      kpC4, wC4, argmaxFirst, argmaxAux, confAux, bump, countsOf, uniqueSorted,
      zeroMat, List.range_succ, List.count_cons, List.count_nil]
  have h2 : claimedRowNormalizedCM kpC4 wC4 0 1 = 1 := by
    norm_num [claimedRowNormalizedCM, Kernel_perceptron.predict,
      kpC4, wC4, argmaxFirst, argmaxAux, confAux, bump,
      zeroMat, List.range_succ, List.count_cons, List.count_nil]
  refine ⟨h1, h2, ?_⟩
  rw [h1, h2]
  norm_num

/-- C4 witness: the amended (column-divisor) statement instantiated on
`kpC4` at cell `(0, 1)`. -/
theorem confusion_matrix_column_normalized_witness :
    0 < kpC4.nclasses ∧ (∀ c < kpC4.nclasses, c ∈ kpC4.test_set.labels) ∧
    (∀ l ∈ kpC4.test_set.labels, l < kpC4.nclasses) ∧ (1 : ℕ) < kpC4.nclasses ∧
    kpC4.confusion_matrix wC4 0 1 =
      confAux kpC4.test_set.labels
        ((kpC4.predict wC4 kpC4.test_set.data).getD []) 0 zeroMat 0 1 /
        (kpC4.test_set.labels.count 1 : ℚ) :=
  ⟨by decide, by decide, by decide, by decide,
    confusion_matrix_column_normalized kpC4 wC4 (by decide) (by decide)
      (by decide) 1 (by decide) 0⟩
